import Mathlib

/-!
Shallow embedding of `src/create_cloth_list.py`: the grid-composition and
pagination core (geometry constants, cell mapping, image fitter, label
stamper, page composer, pagination driver), together with theorems that
settle the specification claims.

Python `int()` on the (positive) values appearing in the source truncates
toward zero, which coincides with the floor; float arithmetic is
modelled with exact rationals.  For the fixed page constants every
floored value is far from an integer boundary, so the floors agree with
float64 evaluation; for the image fitter the rational model can differ
from float64 exactly on boundary inputs whose scaled size is an integer
(e.g. `49 * (1/49.0)` rounds below 1 in float64), and theorems about the
fitter only assert facts that hold on both sides of that boundary.
Python `//` on nonnegative integers is `Nat` division.
External effects are modelled explicitly: whether a candidate font loads
is an oracle `loads : String → Bool`, whether a source image decodes is a
Boolean field of the image record, and whether the document-assembly
collaborator (`pdf.output`) succeeds is a Boolean parameter.
-/

namespace ClothList

/-- Source: `A4_WIDTH_PT = 595.28` (line 10). -/
def A4_WIDTH_PT : ℚ := 59528 / 100

/-- Source: `A4_HEIGHT_PT = 841.89` (line 11). -/
def A4_HEIGHT_PT : ℚ := 84189 / 100

/-- Source: `MARGIN_PT = 30` (line 12). -/
def MARGIN_PT : ℚ := 30

/-- Source: `DPI = 300` (line 13). -/
def DPI : ℚ := 300

/-- Source: `PT_PER_INCH = 72` (line 14). -/
def PT_PER_INCH : ℚ := 72

/-- Source: `SCALE_FACTOR = DPI / PT_PER_INCH` (line 15). -/
def SCALE_FACTOR : ℚ := DPI / PT_PER_INCH

/-- Source: `page_width_pt = int(A4_WIDTH_PT - 2 * MARGIN_PT)` (line 61). -/
def page_width_pt : ℕ := Nat.floor (A4_WIDTH_PT - 2 * MARGIN_PT)

/-- Source: `page_height_pt = int(A4_HEIGHT_PT - 2 * MARGIN_PT)` (line 62). -/
def page_height_pt : ℕ := Nat.floor (A4_HEIGHT_PT - 2 * MARGIN_PT)

/-- Source: `page_width_px = int(page_width_pt * SCALE_FACTOR)` (line 64). -/
def page_width_px : ℕ := Nat.floor ((page_width_pt : ℚ) * SCALE_FACTOR)

/-- Source: `page_height_px = int(page_height_pt * SCALE_FACTOR)` (line 65). -/
def page_height_px : ℕ := Nat.floor ((page_height_pt : ℚ) * SCALE_FACTOR)

/-- Source: `img_max_width = page_width_px // cols` (line 68). -/
def img_max_width (cols : ℕ) : ℕ := page_width_px / cols

/-- Source: `img_max_height = page_height_px // rows` (line 69). -/
def img_max_height (rows : ℕ) : ℕ := page_height_px / rows

/-- The drawable width asserted by the spec sentence "drawable pixel size =
(physical page size − 2×margin) × density, floored to integer pixels" read
as a single floor applied to the product.  Stated from the spec's words,
to be compared with the source's `page_width_px`. -/
def specDrawableW : ℕ := Nat.floor ((A4_WIDTH_PT - 2 * MARGIN_PT) * SCALE_FACTOR)

/-- Spec-side single-floor drawable height, for comparison with the
source's `page_height_px`. -/
def specDrawableH : ℕ := Nat.floor ((A4_HEIGHT_PT - 2 * MARGIN_PT) * SCALE_FACTOR)

/-- Source: `idx_in_page = i % (rows * cols)` (line 112). -/
def idx_in_page (rows cols i : ℕ) : ℕ := i % (rows * cols)

/-- Source: `row = idx_in_page // cols` (line 113). -/
def cellRow (rows cols i : ℕ) : ℕ := idx_in_page rows cols i / cols

/-- Source: `col = idx_in_page % cols` (line 114). -/
def cellCol (rows cols i : ℕ) : ℕ := idx_in_page rows cols i % cols

/-- Source: `x_start = col * img_max_width` (line 117). -/
def x_start (rows cols i : ℕ) : ℕ := cellCol rows cols i * img_max_width cols

/-- Source: `y_start = row * img_max_height` (line 118). -/
def y_start (rows cols i : ℕ) : ℕ := cellRow rows cols i * img_max_height rows

/-- Source: `scale = min(scale_w, scale_h, 1.0)` where `scale_w = img_max_width /
img_width` and `scale_h = img_max_height / img_height` (lines 101-103),
for a generic cell bound `(maxW, maxH)`. -/
def scale (w h maxW maxH : ℕ) : ℚ :=
  min (min ((maxW : ℚ) / (w : ℚ)) ((maxH : ℚ) / (h : ℚ))) 1

/-- Source: `new_width = int(img_width * scale)` (line 105). -/
def new_width (w h maxW maxH : ℕ) : ℕ :=
  Nat.floor ((w : ℚ) * scale w h maxW maxH)

/-- Source: `new_height = int(img_height * scale)` (line 106). -/
def new_height (w h maxW maxH : ℕ) : ℕ :=
  Nat.floor ((h : ℚ) * scale w h maxW maxH)

/-- Source: `x_center = x_start + (img_max_width - new_width) // 2` (line 121).
The subtraction never truncates: `new_width ≤ img_max_width` whenever the
source width is positive (proved below as `new_width_le_maxW`). -/
def x_center (xs maxW newW : ℕ) : ℕ := xs + (maxW - newW) / 2

/-- Source: `y_center = y_start + (img_max_height - new_height) // 2` (line 122). -/
def y_center (ys maxH newH : ℕ) : ℕ := ys + (maxH - newH) / 2

/-- Source: `number = start_index + i + 1` (line 127). -/
def labelNumber (start_index i : ℕ) : ℕ := start_index + i + 1

/-- Source: `text = f"({number})"` (line 128). -/
def labelText (n : ℕ) : String := "(" ++ toString n ++ ")"

/-- Source: `font_candidates` (lines 77-83). -/
def font_candidates : List String :=
  ["Helvetica.ttf", "Arial.ttf", "arial.ttf", "TImes New Roman.ttf", "DejaVuSans.ttf"]

/-- The font-resolution loop (lines 85-91): try each candidate in order,
keep the first that loads.  `loads` is the environment oracle telling
whether `ImageFont.truetype` succeeds for a given face name. -/
def resolveFont (loads : String → Bool) : Option String :=
  font_candidates.find? loads

/-- A source image: native pixel size plus whether `Image.open` succeeds
on its path. -/
structure ImgSpec where
  w : ℕ
  h : ℕ
  ok : Bool
deriving DecidableEq, Repr

/-- The placement computed for one image by the loop body of
`combine_images_to_page` (lines 96-148): grid cell, paste position,
resized dimensions and the stamped label text. -/
structure Placed where
  row : ℕ
  col : ℕ
  x : ℕ
  y : ℕ
  newW : ℕ
  newH : ℕ
  label : String
deriving DecidableEq, Repr

/-- Loop body of `combine_images_to_page` for the image at position `i`
of the page's slice (lines 96-148). -/
def placeImage (rows cols start_index i : ℕ) (img : ImgSpec) : Placed :=
  { row := cellRow rows cols i
    col := cellCol rows cols i
    x := x_center (x_start rows cols i) (img_max_width cols)
      (new_width img.w img.h (img_max_width cols) (img_max_height rows))
    y := y_center (y_start rows cols i) (img_max_height rows)
      (new_height img.w img.h (img_max_width cols) (img_max_height rows))
    newW := new_width img.w img.h (img_max_width cols) (img_max_height rows)
    newH := new_height img.w img.h (img_max_width cols) (img_max_height rows)
    label := labelText (labelNumber start_index i) }

/-- Source: `combine_images_to_page` (lines 39-150), modelled as its observable
outcome: the font is resolved first (lines 85-94, raising
`ValueError("No font found.")` when no candidate loads, before any image
is touched); then each image is opened (`Image.open`, line 97, raising
when the image does not decode) and placed by the loop body.  The page
canvas is abstracted as the list of placements it receives, one per
input image, in input order. -/
def combine_images_to_page (loads : String → Bool) (image_paths : List ImgSpec)
    (rows cols : ℕ) (start_index : ℕ) : Except String (List Placed) :=
  match resolveFont loads with
  | none => Except.error "No font found."
  | some _f =>
    if image_paths.all (fun img => img.ok) then
      Except.ok (image_paths.enum.map (fun p => placeImage rows cols start_index p.1 p.2))
    else
      Except.error "cannot identify image file"

/-- The slicing performed by the driver loop
`for i in range(0, len(image_list), images_per_page)` with
`page_images_paths = image_list[i:i + images_per_page]` (lines 191-193):
the list is cut into successive chunks of `cap` elements. -/
def paginate {α : Type} (cap : ℕ) (l : List α) : List (List α) :=
  if _h : cap = 0 ∨ l.isEmpty then []
  else l.take cap :: paginate cap (l.drop cap)
termination_by l.length
decreasing_by
  simp only [not_or, List.isEmpty_iff, ← ne_eq] at _h
  have hl : 0 < l.length := List.length_pos.mpr _h.2
  have hc : 0 < cap := Nat.pos_of_ne_zero _h.1
  simp only [List.length_drop]
  omega

/-- The label numbers stamped by one `combine_images_to_page` call on a
page of `n` images starting at `start_index` (lines 96, 127). -/
def composePageLabels (start_index n : ℕ) : List ℕ :=
  (List.range n).map (fun i => labelNumber start_index i)

/-- The label numbers stamped over the whole driver loop, starting from
offset `off`: each iteration passes the current offset as `start_index`
(line 196) and advances by `cap` (line 191). -/
def runLabelsAux {α : Type} (cap off : ℕ) (l : List α) : List ℕ :=
  if _h : cap = 0 ∨ l.isEmpty then []
  else composePageLabels off (l.take cap).length ++ runLabelsAux cap (off + cap) (l.drop cap)
termination_by l.length
decreasing_by
  simp only [not_or, List.isEmpty_iff, ← ne_eq] at _h
  have hl : 0 < l.length := List.length_pos.mpr _h.2
  have hc : 0 < cap := Nat.pos_of_ne_zero _h.1
  simp only [List.length_drop]
  omega

/-- The label numbers stamped over a whole run (`create_pdf_from_images`
starts its loop at offset 0, line 191). -/
def runLabels {α : Type} (cap : ℕ) (l : List α) : List ℕ := runLabelsAux cap 0 l

/-- Outcome of a whole `create_pdf_from_images` run: whether it completed,
and which files of the temporary directory still exist when control
leaves the function. -/
structure RunResult where
  success : Bool
  tempFiles : List String
deriving DecidableEq, Repr

/-- The driver loop of `create_pdf_from_images` (lines 191-222) with the
temporary-file state made explicit.  Each iteration composes one page
(line 196; an exception propagates, leaving the function with the files
written so far still on disk), then saves `page_{i//cap + 1}.png` into
the temporary directory (lines 199-200).  After the loop `pdf.output`
runs (line 215, success given by `outputOk`; on failure the files
likewise remain), and only then are the temporary files deleted
(lines 219-221). -/
def create_pdf_aux (loads : String → Bool) (rows cols : ℕ) (l : List ImgSpec)
    (off : ℕ) (written : List String) (outputOk : Bool) : RunResult :=
  if _h : rows * cols = 0 ∨ l.isEmpty then
    if outputOk then { success := true, tempFiles := [] }
    else { success := false, tempFiles := written }
  else
    match combine_images_to_page loads (l.take (rows * cols)) rows cols off with
    | Except.error _ => { success := false, tempFiles := written }
    | Except.ok _ =>
      create_pdf_aux loads rows cols (l.drop (rows * cols)) (off + rows * cols)
        (written ++ ["page_" ++ toString (off / (rows * cols) + 1) ++ ".png"]) outputOk
termination_by l.length
decreasing_by
  simp only [not_or, List.isEmpty_iff, ← ne_eq] at _h
  have hl : 0 < l.length := List.length_pos.mpr _h.2
  have hc : 0 < rows * cols := Nat.pos_of_ne_zero _h.1
  simp only [List.length_drop]
  omega

/-- Source: `create_pdf_from_images` (lines 153-222): the loop starts at offset 0
with no temporary file written yet. -/
def create_pdf_from_images (loads : String → Bool) (image_list : List ImgSpec)
    (rows cols : ℕ) (outputOk : Bool) : RunResult :=
  create_pdf_aux loads rows cols image_list 0 [] outputOk

end ClothList

namespace ClothList

/-! ### Values of the geometry constants -/

theorem page_width_pt_eq : page_width_pt = 535 := by
  rw [page_width_pt, A4_WIDTH_PT, MARGIN_PT, Nat.floor_eq_iff (by norm_num)]
  norm_num

theorem page_height_pt_eq : page_height_pt = 781 := by
  rw [page_height_pt, A4_HEIGHT_PT, MARGIN_PT, Nat.floor_eq_iff (by norm_num)]
  norm_num

theorem page_width_px_eq : page_width_px = 2229 := by
  rw [page_width_px, page_width_pt_eq, SCALE_FACTOR, DPI, PT_PER_INCH,
    Nat.floor_eq_iff (by norm_num)]
  norm_num

theorem page_height_px_eq : page_height_px = 3254 := by
  rw [page_height_px, page_height_pt_eq, SCALE_FACTOR, DPI, PT_PER_INCH,
    Nat.floor_eq_iff (by norm_num)]
  norm_num

theorem specDrawableW_eq : specDrawableW = 2230 := by
  rw [specDrawableW, A4_WIDTH_PT, MARGIN_PT, SCALE_FACTOR, DPI, PT_PER_INCH,
    Nat.floor_eq_iff (by norm_num)]
  norm_num

theorem specDrawableH_eq : specDrawableH = 3257 := by
  rw [specDrawableH, A4_HEIGHT_PT, MARGIN_PT, SCALE_FACTOR, DPI, PT_PER_INCH,
    Nat.floor_eq_iff (by norm_num)]
  norm_num

/-! ### Unfolding lemmas for the recursive definitions -/

theorem paginate_eq_nil {α : Type} {cap : ℕ} {l : List α} (h : cap = 0 ∨ l = []) :
    paginate cap l = [] := by
  rw [paginate.eq_def]
  apply dif_pos
  rcases h with h | h
  · exact Or.inl h
  · exact Or.inr (by simp [h])

theorem paginate_cons {α : Type} {cap : ℕ} {l : List α} (hc : cap ≠ 0) (hl : l ≠ []) :
    paginate cap l = l.take cap :: paginate cap (l.drop cap) := by
  rw [paginate.eq_def]
  apply dif_neg
  simp [hc, hl]

theorem runLabelsAux_eq_nil {α : Type} {cap off : ℕ} {l : List α}
    (h : cap = 0 ∨ l = []) : runLabelsAux cap off l = [] := by
  rw [runLabelsAux.eq_def]
  apply dif_pos
  rcases h with h | h
  · exact Or.inl h
  · exact Or.inr (by simp [h])

theorem runLabelsAux_cons {α : Type} {cap off : ℕ} {l : List α} (hc : cap ≠ 0)
    (hl : l ≠ []) :
    runLabelsAux cap off l =
      composePageLabels off (l.take cap).length ++ runLabelsAux cap (off + cap) (l.drop cap) := by
  rw [runLabelsAux.eq_def]
  apply dif_neg
  simp [hc, hl]

end ClothList

namespace ClothList

/-! ### Pagination lemmas -/

theorem ceilDiv_step (cap n : ℕ) (hc : 0 < cap) (hn : 0 < n) :
    (n - cap + cap - 1) / cap + 1 = (n + cap - 1) / cap := by
  rcases le_or_lt n cap with h | h
  · have h1 : n - cap = 0 := by omega
    rw [h1]
    have h2 : (0 + cap - 1) / cap = 0 := Nat.div_eq_of_lt (by omega)
    rw [h2]
    symm
    exact Nat.div_eq_of_lt_le (by omega) (by omega)
  · have h3 : n - cap + cap - 1 + cap = n + cap - 1 := by omega
    calc (n - cap + cap - 1) / cap + 1 = (n - cap + cap - 1 + cap) / cap :=
          (Nat.add_div_right _ hc).symm
      _ = (n + cap - 1) / cap := by rw [h3]

theorem paginate_length {α : Type} (cap : ℕ) (l : List α) (hc : 0 < cap) :
    (paginate cap l).length = (l.length + cap - 1) / cap := by
  induction l using paginate.induct cap with
  | case1 l h =>
    rcases h with h | h
    · omega
    · have hl : l = [] := by simpa using h
      subst hl
      rw [paginate_eq_nil (Or.inr rfl)]
      simp [Nat.div_eq_of_lt (show cap - 1 < cap by omega)]
  | case2 l h ih =>
    simp only [not_or] at h
    have hl : l ≠ [] := by
      intro hnil; exact h.2 (by simp [hnil])
    have hlen : 0 < l.length := List.length_pos.mpr hl
    rw [paginate_cons h.1 hl]
    simp only [List.length_cons, ih, List.length_drop]
    exact ceilDiv_step cap l.length hc hlen

theorem paginate_flatten {α : Type} (cap : ℕ) (l : List α) (hc : 0 < cap) :
    (paginate cap l).flatten = l := by
  induction l using paginate.induct cap with
  | case1 l h =>
    rcases h with h | h
    · omega
    · have hl : l = [] := by simpa using h
      subst hl
      rw [paginate_eq_nil (Or.inr rfl)]
      rfl
  | case2 l h ih =>
    simp only [not_or] at h
    have hl : l ≠ [] := by
      intro hnil; exact h.2 (by simp [hnil])
    rw [paginate_cons h.1 hl]
    simp only [List.flatten_cons, ih]
    exact List.take_append_drop cap l

theorem paginate_mem {α : Type} (cap : ℕ) (l : List α) (hc : 0 < cap) :
    ∀ c ∈ paginate cap l, c ≠ [] ∧ c.length ≤ cap := by
  induction l using paginate.induct cap with
  | case1 l h =>
    rcases h with h | h
    · omega
    · have hl : l = [] := by simpa using h
      subst hl
      rw [paginate_eq_nil (Or.inr rfl)]
      simp
  | case2 l h ih =>
    simp only [not_or] at h
    have hl : l ≠ [] := by
      intro hnil; exact h.2 (by simp [hnil])
    rw [paginate_cons h.1 hl]
    intro c hmem
    rcases List.mem_cons.mp hmem with hceq | htail
    · subst hceq
      constructor
      · simp [List.take_eq_nil_iff, h.1, hl]
      · simp [List.length_take]
    · exact ih c htail

theorem paginate_eq_map_range {α : Type} (cap : ℕ) (l : List α) (hc : 0 < cap) :
    paginate cap l =
      (List.range (paginate cap l).length).map (fun k => (l.drop (k * cap)).take cap) := by
  induction l using paginate.induct cap with
  | case1 l h =>
    rcases h with h | h
    · omega
    · have hl : l = [] := by simpa using h
      subst hl
      rw [paginate_eq_nil (Or.inr rfl)]
      rfl
  | case2 l h ih =>
    simp only [not_or] at h
    have hl : l ≠ [] := by
      intro hnil; exact h.2 (by simp [hnil])
    rw [paginate_cons h.1 hl]
    simp only [List.length_cons, List.range_succ_eq_map, List.map_cons, List.map_map]
    congr 1
    · simp
    · rw [ih]
      simp only [List.length_map, List.length_range]
      apply List.map_congr_left
      intro k _
      simp only [Function.comp_apply, Nat.succ_eq_add_one, List.drop_drop]
      congr 2
      ring

theorem paginate_getElem {α : Type} (cap : ℕ) (l : List α) (hc : 0 < cap) (k : ℕ)
    (hk : k < (paginate cap l).length) :
    (paginate cap l)[k]? = some ((l.drop (k * cap)).take cap) := by
  conv_lhs => rw [paginate_eq_map_range cap l hc]
  rw [List.getElem?_map, List.getElem?_range hk]
  rfl

theorem paginate_length_of_dvd {α : Type} (cap : ℕ) (l : List α) (hc : 0 < cap)
    (hdvd : cap ∣ l.length) : ∀ c ∈ paginate cap l, c.length = cap := by
  induction l using paginate.induct cap with
  | case1 l h =>
    rcases h with h | h
    · omega
    · have hl : l = [] := by simpa using h
      subst hl
      rw [paginate_eq_nil (Or.inr rfl)]
      simp
  | case2 l h ih =>
    simp only [not_or] at h
    have hl : l ≠ [] := by
      intro hnil; exact h.2 (by simp [hnil])
    have hlen : 0 < l.length := List.length_pos.mpr hl
    have hcap_le : cap ≤ l.length := Nat.le_of_dvd hlen hdvd
    rw [paginate_cons h.1 hl]
    intro c hmem
    rcases List.mem_cons.mp hmem with hceq | htail
    · subst hceq
      simp [List.length_take]
      omega
    · have hdvd2 : cap ∣ (l.drop cap).length := by
        rw [List.length_drop]
        exact Nat.dvd_sub' hdvd dvd_rfl
      exact ih hdvd2 c htail

theorem paginate_extra_one {α : Type} (cap : ℕ) (l : List α) (hc : 0 < cap) (m : ℕ)
    (hlen : l.length = m * cap + 1) :
    (paginate cap l).length = m + 1 ∧
      (paginate cap l).getLast? = some (l.drop (m * cap)) ∧
      (l.drop (m * cap)).length = 1 ∧
      ∃ x, l.drop (m * cap) = [x] ∧ l[m * cap]? = some x := by
  have hlength : (paginate cap l).length = m + 1 := by
    rw [paginate_length cap l hc, hlen]
    have h1 : m * cap + 1 + cap - 1 = m * cap + cap := by omega
    rw [h1, Nat.add_div_right _ hc, Nat.mul_div_cancel _ hc]
  have hdlen : (l.drop (m * cap)).length = 1 := by
    rw [List.length_drop, hlen]
    omega
  have hlast : (paginate cap l).getLast? = some (l.drop (m * cap)) := by
    rw [List.getLast?_eq_getElem?, hlength, Nat.add_sub_cancel]
    rw [paginate_getElem cap l hc m (by omega)]
    congr 1
    exact List.take_of_length_le (by omega)
  refine ⟨hlength, hlast, hdlen, ?_⟩
  obtain ⟨x, hx⟩ := List.length_eq_one.mp hdlen
  refine ⟨x, hx, ?_⟩
  have h0 : (l.drop (m * cap))[0]? = some x := by rw [hx]; rfl
  rw [List.getElem?_drop] at h0
  simpa using h0

/-! ### Label lemmas -/

theorem runLabelsAux_eq_map {α : Type} (cap : ℕ) (hc : 0 < cap) (l : List α) (off : ℕ) :
    runLabelsAux cap off l = (List.range l.length).map (fun j => off + j + 1) := by
  induction off, l using runLabelsAux.induct cap with
  | case1 off l h =>
    rcases h with h | h
    · omega
    · have hl : l = [] := by simpa using h
      subst hl
      rw [runLabelsAux_eq_nil (Or.inr rfl)]
      rfl
  | case2 off l h ih =>
    simp only [not_or] at h
    have hl : l ≠ [] := by
      intro hnil; exact h.2 (by simp [hnil])
    rw [runLabelsAux_cons h.1 hl, ih, List.length_take, List.length_drop]
    rcases le_or_lt l.length cap with hle | hlt
    · have hmin : min cap l.length = l.length := by omega
      have hsub : l.length - cap = 0 := by omega
      rw [hmin, hsub]
      simp [composePageLabels, labelNumber]
    · have hmin : min cap l.length = cap := by omega
      have hsplit : l.length = cap + (l.length - cap) := by omega
      rw [hmin]
      conv_rhs => rw [hsplit]
      rw [List.range_add, List.map_append, List.map_map]
      have hfirst : composePageLabels off cap =
          (List.range cap).map (fun j => off + j + 1) := by
        simp [composePageLabels, labelNumber]
      have hsecond : (List.range (l.length - cap)).map (fun j => off + cap + j + 1) =
          (List.range (l.length - cap)).map ((fun j => off + j + 1) ∘ fun x => cap + x) := by
        apply List.map_congr_left
        intro k _
        simp only [Function.comp_apply]
        omega
      rw [hfirst, hsecond]

/-! ### Claim theorems -/

/-- C1: for every non-empty image list and every grid with `rows ≥ 1` and
`cols ≥ 1` (capacity = rows·cols), the pagination driver produces exactly
`⌈count / capacity⌉ = (count + capacity - 1) / capacity` pages; the list
is split into contiguous chunks of size capacity in original order (chunk
`k` is `(l.drop (k·cap)).take cap`, and the chunks concatenate back to
`l`); an exact multiple of capacity produces no trailing empty page
(every page is non-empty, and with `cap ∣ count` every page has exactly
`cap` images); one extra image beyond a multiple produces exactly one
additional page containing only that image. -/
theorem claim_C1 {α : Type} (l : List α) (rows cols : ℕ) (_hne : l ≠ [])
    (hr : 0 < rows) (hcol : 0 < cols) :
    (paginate (rows * cols) l).length = (l.length + rows * cols - 1) / (rows * cols) ∧
    (paginate (rows * cols) l).flatten = l ∧
    (∀ k, k < (paginate (rows * cols) l).length →
      (paginate (rows * cols) l)[k]? =
        some ((l.drop (k * (rows * cols))).take (rows * cols))) ∧
    (∀ c ∈ paginate (rows * cols) l, c ≠ [] ∧ c.length ≤ rows * cols) ∧
    (rows * cols ∣ l.length → ∀ c ∈ paginate (rows * cols) l, c.length = rows * cols) ∧
    (∀ m, l.length = m * (rows * cols) + 1 →
      (paginate (rows * cols) l).length = m + 1 ∧
      (paginate (rows * cols) l).getLast? = some (l.drop (m * (rows * cols))) ∧
      ∃ x, l.drop (m * (rows * cols)) = [x] ∧ l[m * (rows * cols)]? = some x) := by
  have hcap : 0 < rows * cols := Nat.mul_pos hr hcol
  refine ⟨paginate_length _ l hcap, paginate_flatten _ l hcap,
    fun k hk => paginate_getElem _ l hcap k hk, paginate_mem _ l hcap,
    paginate_length_of_dvd _ l hcap, fun m hm => ?_⟩
  obtain ⟨h1, h2, _h3, h4⟩ := paginate_extra_one (rows * cols) l hcap m hm
  exact ⟨h1, h2, h4⟩

theorem claim_C1_witness :
    (paginate 4 ([0, 1, 2, 3, 4, 5, 6] : List ℕ)).length = 2 := by
  have h := (claim_C1 ([0, 1, 2, 3, 4, 5, 6] : List ℕ) 2 2 (by decide)
    (by decide) (by decide)).1
  norm_num at h
  exact h

/-- C2: over a run on `N` images the ordinal stamped on the `j`-th image
overall (0-based) is `j + 1`, rendered as the text `"(j+1)"`; the label
sequence is exactly `[1, 2, ..., N]` (strictly increasing by one, no
repeats or gaps), and page `k`'s first label — the one at overall
position `k·capacity` — equals `k·capacity + 1` regardless of how many
images the final partial page received. -/
theorem claim_C2 {α : Type} (l : List α) (rows cols : ℕ) (hr : 0 < rows)
    (hcol : 0 < cols) :
    runLabels (rows * cols) l = (List.range l.length).map (fun j => j + 1) ∧
    (∀ j, j < l.length → (runLabels (rows * cols) l)[j]? = some (j + 1)) ∧
    (∀ k, k * (rows * cols) < l.length →
      (runLabels (rows * cols) l)[k * (rows * cols)]? = some (k * (rows * cols) + 1)) ∧
    (∀ n, labelText n = "(" ++ toString n ++ ")") := by
  have hcap : 0 < rows * cols := Nat.mul_pos hr hcol
  have hmain : runLabels (rows * cols) l = (List.range l.length).map (fun j => j + 1) := by
    rw [runLabels, runLabelsAux_eq_map _ hcap]
    apply List.map_congr_left
    intro j _
    omega
  have hidx : ∀ j, j < l.length → (runLabels (rows * cols) l)[j]? = some (j + 1) := by
    intro j hj
    rw [hmain, List.getElem?_map, List.getElem?_range hj]
    rfl
  exact ⟨hmain, hidx, fun k hk => hidx _ hk, fun n => rfl⟩

theorem claim_C2_witness :
    (runLabels 4 ([0, 0, 0, 0, 0] : List ℕ))[4]? = some 5 := by
  have h := (claim_C2 ([0, 0, 0, 0, 0] : List ℕ) 2 2 (by decide) (by decide)).2.2.1
  have h2 := h 1 (by norm_num)
  norm_num at h2
  exact h2

/-- C3: within a page, the image at local index `i < capacity` is assigned
the row-major cell `(row = i / cols, col = i % cols)` with top-left pixel
offset `(col·cellMaxWidth, row·cellMaxHeight)`; in particular for
`rows = 4`, `cols = 3`, local index 4 maps to `(1, 1)`, index 0 to
`(0, 0)` and index 11 to `(3, 2)`. -/
theorem claim_C3 (rows cols i : ℕ) (_hr : 0 < rows) (_hcol : 0 < cols)
    (hi : i < rows * cols) :
    (cellRow rows cols i = i / cols ∧ cellCol rows cols i = i % cols ∧
     x_start rows cols i = (i % cols) * img_max_width cols ∧
     y_start rows cols i = (i / cols) * img_max_height rows) ∧
    (cellRow 4 3 4 = 1 ∧ cellCol 4 3 4 = 1 ∧ cellRow 4 3 0 = 0 ∧ cellCol 4 3 0 = 0 ∧
     cellRow 4 3 11 = 3 ∧ cellCol 4 3 11 = 2) := by
  have hmod : idx_in_page rows cols i = i := Nat.mod_eq_of_lt hi
  refine ⟨⟨?_, ?_, ?_, ?_⟩, by decide⟩
  · rw [cellRow, hmod]
  · rw [cellCol, hmod]
  · rw [x_start, cellCol, hmod]
  · rw [y_start, cellRow, hmod]

theorem claim_C3_witness : cellRow 4 3 11 = 3 ∧ cellCol 4 3 11 = 2 := by
  have h := (claim_C3 4 3 11 (by decide) (by decide) (by decide)).1
  exact ⟨h.1.trans (by norm_num), h.2.1.trans (by norm_num)⟩

/-- C4 counterexample: the geometry code floors the margin-reduced point
size to an integer (line 61-62) before multiplying by the density, so the
drawable size is `⌊⌊595.28 - 60⌋ · 25/6⌋ = ⌊535 · 25/6⌋ = 2229` pixels
wide and `⌊781 · 25/6⌋ = 3254` high, while a single floor applied to the
product gives `⌊535.28 · 25/6⌋ = 2230` and `⌊781.89 · 25/6⌋ = 3257`. -/
theorem claim_C4_counterexample :
    page_width_px = 2229 ∧ specDrawableW = 2230 ∧ page_width_px ≠ specDrawableW ∧
    page_height_px = 3254 ∧ specDrawableH = 3257 ∧ page_height_px ≠ specDrawableH := by
  refine ⟨page_width_px_eq, specDrawableW_eq, ?_, page_height_px_eq, specDrawableH_eq, ?_⟩
  · rw [page_width_px_eq, specDrawableW_eq]; decide
  · rw [page_height_px_eq, specDrawableH_eq]; decide

/-- C4 (amended): the drawable pixel size is obtained by flooring twice —
`floor(floor(physical − 2·margin) · density)` per axis, giving 2229 × 3254
pixels — not by a single floor of the product; the per-cell maximum is the
drawable size integer-divided by columns (resp. rows), with the remainder
(fewer than `cols`, resp. `rows`, pixels) left as unused trailing space
rather than raising an error. -/
theorem claim_C4_amended (rows cols : ℕ) (hr : 0 < rows) (hcol : 0 < cols) :
    page_width_px = Nat.floor ((Nat.floor (A4_WIDTH_PT - 2 * MARGIN_PT) : ℚ) * SCALE_FACTOR) ∧
    page_height_px = Nat.floor ((Nat.floor (A4_HEIGHT_PT - 2 * MARGIN_PT) : ℚ) * SCALE_FACTOR) ∧
    page_width_px = 2229 ∧ page_height_px = 3254 ∧
    img_max_width cols = page_width_px / cols ∧
    img_max_height rows = page_height_px / rows ∧
    cols * img_max_width cols + page_width_px % cols = page_width_px ∧
    page_width_px % cols < cols ∧
    rows * img_max_height rows + page_height_px % rows = page_height_px ∧
    page_height_px % rows < rows := by
  refine ⟨rfl, rfl, page_width_px_eq, page_height_px_eq, rfl, rfl, ?_, ?_, ?_, ?_⟩
  · exact Nat.div_add_mod page_width_px cols
  · exact Nat.mod_lt _ hcol
  · exact Nat.div_add_mod page_height_px rows
  · exact Nat.mod_lt _ hr

theorem claim_C4_amended_witness : img_max_width 3 = 743 ∧ img_max_height 4 = 813 := by
  have h := claim_C4_amended 4 3 (by decide) (by decide)
  have h1 : img_max_width 3 = page_width_px / 3 := h.2.2.2.2.1
  have h2 : img_max_height 4 = page_height_px / 4 := h.2.2.2.2.2.1
  rw [h1, h2, h.2.2.1, h.2.2.2.1]
  exact ⟨by norm_num, by norm_num⟩

/-! ### Image-fitter lemmas -/

theorem scale_le_one (w h maxW maxH : ℕ) : scale w h maxW maxH ≤ 1 :=
  min_le_right _ _

theorem scale_nonneg (w h maxW maxH : ℕ) : 0 ≤ scale w h maxW maxH := by
  rw [scale]
  refine le_min (le_min ?_ ?_) (by norm_num) <;> positivity

theorem new_width_le_w (w h maxW maxH : ℕ) : new_width w h maxW maxH ≤ w := by
  rw [new_width]
  calc Nat.floor ((w : ℚ) * scale w h maxW maxH) ≤ Nat.floor ((w : ℚ)) :=
        Nat.floor_le_floor (mul_le_of_le_one_right (by positivity) (scale_le_one w h maxW maxH))
    _ = w := Nat.floor_natCast w

theorem new_height_le_h (w h maxW maxH : ℕ) : new_height w h maxW maxH ≤ h := by
  rw [new_height]
  calc Nat.floor ((h : ℚ) * scale w h maxW maxH) ≤ Nat.floor ((h : ℚ)) :=
        Nat.floor_le_floor (mul_le_of_le_one_right (by positivity) (scale_le_one w h maxW maxH))
    _ = h := Nat.floor_natCast h

theorem new_width_le_maxW (w h maxW maxH : ℕ) (hw : 0 < w) :
    new_width w h maxW maxH ≤ maxW := by
  have hw0 : ((w : ℚ)) ≠ 0 := by positivity
  have hmul : (w : ℚ) * ((maxW : ℚ) / (w : ℚ)) = (maxW : ℚ) := by
    field_simp
  have hle : (w : ℚ) * scale w h maxW maxH ≤ (maxW : ℚ) := by
    calc (w : ℚ) * scale w h maxW maxH ≤ (w : ℚ) * ((maxW : ℚ) / (w : ℚ)) := by
          apply mul_le_mul_of_nonneg_left _ (by positivity)
          exact le_trans (min_le_left _ _) (min_le_left _ _)
      _ = (maxW : ℚ) := hmul
  calc new_width w h maxW maxH ≤ Nat.floor ((maxW : ℚ)) := Nat.floor_le_floor hle
    _ = maxW := Nat.floor_natCast maxW

theorem new_height_le_maxH (w h maxW maxH : ℕ) (hh : 0 < h) :
    new_height w h maxW maxH ≤ maxH := by
  have hmul : (h : ℚ) * ((maxH : ℚ) / (h : ℚ)) = (maxH : ℚ) := by
    field_simp
  have hle : (h : ℚ) * scale w h maxW maxH ≤ (maxH : ℚ) := by
    calc (h : ℚ) * scale w h maxW maxH ≤ (h : ℚ) * ((maxH : ℚ) / (h : ℚ)) := by
          apply mul_le_mul_of_nonneg_left _ (by positivity)
          exact le_trans (min_le_left _ _) (min_le_right _ _)
      _ = (maxH : ℚ) := hmul
  calc new_height w h maxW maxH ≤ Nat.floor ((maxH : ℚ)) := Nat.floor_le_floor hle
    _ = maxH := Nat.floor_natCast maxH

theorem scale_eq_one_of_fits (w h maxW maxH : ℕ) (hw : 0 < w) (hh : 0 < h)
    (h1 : w ≤ maxW) (h2 : h ≤ maxH) : scale w h maxW maxH = 1 := by
  rw [scale]
  have hwq : (0 : ℚ) < (w : ℚ) := by exact_mod_cast hw
  have hhq : (0 : ℚ) < (h : ℚ) := by exact_mod_cast hh
  have ha : (1 : ℚ) ≤ (maxW : ℚ) / (w : ℚ) := (one_le_div hwq).mpr (by exact_mod_cast h1)
  have hb : (1 : ℚ) ≤ (maxH : ℚ) / (h : ℚ) := (one_le_div hhq).mpr (by exact_mod_cast h2)
  rw [min_eq_right (le_min ha hb)]

/-- C5: the fitter uses the single scale factor
`min(cellMaxW/w, cellMaxH/h, 1)` on both axes, so images that fit their
cell keep their native size and no image is ever upscaled; target
dimensions are `floor(native · scale)` per axis; the image is placed at
cell top-left plus `floor((cellMax − target) / 2)` per axis, biased
toward the top-left on odd remainders (the leading gap never exceeds the
trailing gap). -/
theorem claim_C5 (w h maxW maxH : ℕ) (hw : 0 < w) (hh : 0 < h) :
    scale w h maxW maxH = min (min ((maxW : ℚ) / (w : ℚ)) ((maxH : ℚ) / (h : ℚ))) 1 ∧
    new_width w h maxW maxH = Nat.floor ((w : ℚ) * scale w h maxW maxH) ∧
    new_height w h maxW maxH = Nat.floor ((h : ℚ) * scale w h maxW maxH) ∧
    new_width w h maxW maxH ≤ w ∧ new_height w h maxW maxH ≤ h ∧
    (w ≤ maxW → h ≤ maxH → new_width w h maxW maxH = w ∧ new_height w h maxW maxH = h) ∧
    new_width w h maxW maxH ≤ maxW ∧ new_height w h maxW maxH ≤ maxH ∧
    (∀ xs, x_center xs maxW (new_width w h maxW maxH) =
      xs + (maxW - new_width w h maxW maxH) / 2) ∧
    (∀ ys, y_center ys maxH (new_height w h maxW maxH) =
      ys + (maxH - new_height w h maxW maxH) / 2) ∧
    (maxW - new_width w h maxW maxH) / 2 ≤
      (maxW - new_width w h maxW maxH) - (maxW - new_width w h maxW maxH) / 2 ∧
    (maxH - new_height w h maxW maxH) / 2 ≤
      (maxH - new_height w h maxW maxH) - (maxH - new_height w h maxW maxH) / 2 := by
  refine ⟨rfl, rfl, rfl, new_width_le_w w h maxW maxH, new_height_le_h w h maxW maxH,
    ?_, new_width_le_maxW w h maxW maxH hw, new_height_le_maxH w h maxW maxH hh,
    fun xs => rfl, fun ys => rfl, by omega, by omega⟩
  intro h1 h2
  have hs := scale_eq_one_of_fits w h maxW maxH hw hh h1 h2
  constructor
  · rw [new_width, hs, mul_one, Nat.floor_natCast]
  · rw [new_height, hs, mul_one, Nat.floor_natCast]

theorem claim_C5_witness :
    new_width 10 7 100 100 = 10 ∧ new_height 10 7 100 100 = 7 := by
  have h := (claim_C5 10 7 100 100 (by decide) (by decide)).2.2.2.2.2.1
  exact h (by decide) (by decide)

/-- C6 counterexample: for a 1×100 image in a 100×10 cell (all dimensions
positive), the scale is `min(100/1, 10/100, 1) = 1/10` and the target
width is `floor(1 · 1/10) = 0`, not a positive integer. -/
theorem claim_C6_counterexample :
    0 < 1 ∧ 0 < 100 ∧ 0 < 100 ∧ 0 < 10 ∧ new_width 1 100 100 10 = 0 := by
  refine ⟨by decide, by decide, by decide, by decide, ?_⟩
  rw [new_width, scale]
  push_cast
  rw [show min (min ((100 : ℚ) / 1) ((10 : ℚ) / 100)) 1 = 1 / 10 by norm_num [min_def]]
  rw [Nat.floor_eq_zero]
  norm_num

/-- C6 (amended): for positive native and cell dimensions the fitter's
target width and height are positive whenever the image fits its cell on
both axes (`w ≤ cellMaxW` and `h ≤ cellMaxH`): there the no-upscale clamp
makes the scale exactly 1.0 — with no rounding involved, also in the
program's float64 arithmetic — and the targets equal the (positive)
native sizes.  Positivity does not extend to down-scaled images: an
extreme aspect ratio floors the thinner axis to 0 (a 1×100 image in a
100×10 cell), and on boundary inputs whose exact scaled size is an
integer the program's float64 rounding can floor one lower still (a
49×49 image in a 1×1 cell yields `int(49 * (1/49.0)) = 0`), so no sharp
arithmetic threshold below the fits case is claimed. -/
theorem claim_C6_amended (w h maxW maxH : ℕ) (hw : 0 < w) (hh : 0 < h)
    (_hmw : 0 < maxW) (_hmh : 0 < maxH) (hfitw : w ≤ maxW) (hfith : h ≤ maxH) :
    0 < new_width w h maxW maxH ∧ 0 < new_height w h maxW maxH := by
  have hs : scale w h maxW maxH = 1 := scale_eq_one_of_fits w h maxW maxH hw hh hfitw hfith
  constructor
  · rw [new_width, hs, mul_one, Nat.floor_natCast]
    exact hw
  · rw [new_height, hs, mul_one, Nat.floor_natCast]
    exact hh

theorem claim_C6_amended_witness :
    0 < new_width 50 100 100 100 ∧ 0 < new_height 50 100 100 100 :=
  claim_C6_amended 50 100 100 100 (by decide) (by decide) (by decide) (by decide)
    (by decide) (by decide)

/-! ### Font-resolution lemmas -/

theorem find_first {α : Type} (p : α → Bool) :
    ∀ (l : List α) (a : α), l.find? p = some a →
      p a = true ∧ ∃ k : ℕ, l[k]? = some a ∧
        ∀ j : ℕ, j < k → ∀ b, l[j]? = some b → p b = false := by
  intro l
  induction l with
  | nil =>
    intro a hfind
    simp at hfind
  | cons x t ih =>
    intro a hfind
    by_cases hp : p x = true
    · rw [List.find?_cons_of_pos _ hp] at hfind
      obtain rfl : x = a := by simpa using hfind
      refine ⟨hp, 0, by simp, ?_⟩
      intro j hj
      omega
    · have hp2 : p x = false := by simpa using hp
      rw [List.find?_cons_of_neg _ (by simp [hp2])] at hfind
      obtain ⟨hpa, k, hk, hfirst⟩ := ih a hfind
      refine ⟨hpa, k + 1, by simpa using hk, ?_⟩
      intro j hj b hjb
      match j with
      | 0 =>
        obtain rfl : x = b := by simpa using hjb
        exact hp2
      | Nat.succ j2 =>
        exact hfirst j2 (by omega) b (by simpa using hjb)

/-- C7: font resolution tries the fixed ordered candidate list and the
page composer uses the first face that loads; when no candidate loads the
composer fails with the fatal "No font found." error before processing
any image (the outcome is the same error for every image list — no
placement is computed, and there is no silent fallback face). -/
theorem claim_C7 (loads : String → Bool) (imgs : List ImgSpec) (rows cols s : ℕ) :
    (resolveFont loads = none ↔ ∀ f ∈ font_candidates, loads f = false) ∧
    (resolveFont loads = none →
      combine_images_to_page loads imgs rows cols s = Except.error "No font found.") ∧
    (resolveFont loads = none → ∀ imgs2 : List ImgSpec,
      combine_images_to_page loads imgs rows cols s =
        combine_images_to_page loads imgs2 rows cols s) ∧
    (∀ f, resolveFont loads = some f → loads f = true ∧ f ∈ font_candidates ∧
      ∃ k : ℕ, font_candidates[k]? = some f ∧
        ∀ j : ℕ, j < k → ∀ g, font_candidates[j]? = some g → loads g = false) := by
  refine ⟨?_, ?_, ?_, ?_⟩
  · rw [resolveFont, List.find?_eq_none]
    constructor
    · intro hnone f hf
      simpa using hnone f hf
    · intro hfalse f hf
      simp [hfalse f hf]
  · intro hnone
    rw [combine_images_to_page, hnone]
  · intro hnone imgs2
    rw [combine_images_to_page, hnone, combine_images_to_page, hnone]
  · intro f hsome
    obtain ⟨hpf, k, hk, hfirst⟩ := find_first loads font_candidates f hsome
    exact ⟨hpf, List.getElem?_mem hk, k, hk, hfirst⟩

theorem claim_C7_witness :
    combine_images_to_page (fun _ => false) [] 4 3 0 = Except.error "No font found." := by
  exact (claim_C7 (fun _ => false) [] 4 3 0).2.1 rfl

/-- C8: when the page composer is handed a slice longer than
`capacity = rows·cols` (font resolved, all images decodable), it does not
raise: it returns a placement for every image of the slice, and the image
at local index `i` is assigned the wrapped cell index `i % capacity`
(row `(i % cap) / cols`, column `(i % cap) % cols`), i.e. the same cell
as the image at local index `i % capacity`. -/
theorem claim_C8 (loads : String → Bool) (imgs : List ImgSpec) (rows cols s : ℕ)
    (_hr : 0 < rows) (_hcol : 0 < cols) (hfont : (resolveFont loads).isSome = true)
    (hok : ∀ img ∈ imgs, img.ok = true) (_hlong : rows * cols < imgs.length) :
    ∃ res, combine_images_to_page loads imgs rows cols s = Except.ok res ∧
      res.length = imgs.length ∧
      res = imgs.enum.map (fun p => placeImage rows cols s p.1 p.2) ∧
      (∀ i img2, (placeImage rows cols s i img2).row = (i % (rows * cols)) / cols ∧
        (placeImage rows cols s i img2).col = (i % (rows * cols)) % cols ∧
        (placeImage rows cols s i img2).row =
          (placeImage rows cols s (i % (rows * cols)) img2).row ∧
        (placeImage rows cols s i img2).col =
          (placeImage rows cols s (i % (rows * cols)) img2).col) := by
  obtain ⟨f, hf⟩ := Option.isSome_iff_exists.mp hfont
  have hall : imgs.all (fun img => img.ok) = true := by
    rw [List.all_eq_true]
    intro img hmem
    exact hok img hmem
  refine ⟨imgs.enum.map (fun p => placeImage rows cols s p.1 p.2), ?_, by simp, rfl, ?_⟩
  · rw [combine_images_to_page, hf, if_pos hall]
  · intro i img2
    have hwrap : i % (rows * cols) % (rows * cols) = i % (rows * cols) :=
      Nat.mod_mod_of_dvd i dvd_rfl
    refine ⟨rfl, rfl, ?_, ?_⟩
    · show cellRow rows cols i = cellRow rows cols (i % (rows * cols))
      rw [cellRow, cellRow, idx_in_page, idx_in_page, hwrap]
    · show cellCol rows cols i = cellCol rows cols (i % (rows * cols))
      rw [cellCol, cellCol, idx_in_page, idx_in_page, hwrap]

theorem claim_C8_witness :
    ∃ res, combine_images_to_page (fun _ => true)
        [⟨8, 8, true⟩, ⟨9, 9, true⟩] 1 1 0 = Except.ok res ∧ res.length = 2 := by
  obtain ⟨res, hres, hlen, _⟩ := claim_C8 (fun _ => true) [⟨8, 8, true⟩, ⟨9, 9, true⟩]
    1 1 0 (by decide) (by decide) rfl (by decide) (by decide)
  exact ⟨res, hres, by simpa using hlen⟩

/-! ### Pagination-driver lemmas (temporary-file lifecycle) -/

theorem combine_ok_iff (loads : String → Bool) (imgs : List ImgSpec) (rows cols s : ℕ) :
    (∃ res, combine_images_to_page loads imgs rows cols s = Except.ok res) ↔
      ((resolveFont loads).isSome = true ∧ imgs.all (fun img => img.ok) = true) := by
  cases hf : resolveFont loads with
  | none => simp [combine_images_to_page, hf]
  | some f =>
    by_cases hall : imgs.all (fun img => img.ok) = true
    · simp [combine_images_to_page, hf, hall]
    · simp [combine_images_to_page, hf, hall]

theorem create_pdf_aux_done (loads : String → Bool) (rows cols : ℕ) (l : List ImgSpec)
    (off : ℕ) (written : List String) (outputOk : Bool)
    (h : rows * cols = 0 ∨ l = []) :
    create_pdf_aux loads rows cols l off written outputOk =
      if outputOk then { success := true, tempFiles := [] }
      else { success := false, tempFiles := written } := by
  rw [create_pdf_aux.eq_def]
  apply dif_pos
  rcases h with h | h
  · exact Or.inl h
  · exact Or.inr (by simp [h])

theorem create_pdf_aux_error (loads : String → Bool) (rows cols : ℕ) (l : List ImgSpec)
    (off : ℕ) (written : List String) (outputOk : Bool)
    (hcap : rows * cols ≠ 0) (hl : l ≠ []) (e : String)
    (herr : combine_images_to_page loads (l.take (rows * cols)) rows cols off =
      Except.error e) :
    create_pdf_aux loads rows cols l off written outputOk =
      { success := false, tempFiles := written } := by
  rw [create_pdf_aux.eq_def]
  rw [dif_neg (by simp [hcap, hl])]
  rw [herr]

theorem create_pdf_aux_step (loads : String → Bool) (rows cols : ℕ) (l : List ImgSpec)
    (off : ℕ) (written : List String) (outputOk : Bool)
    (hcap : rows * cols ≠ 0) (hl : l ≠ []) (res : List Placed)
    (hok : combine_images_to_page loads (l.take (rows * cols)) rows cols off =
      Except.ok res) :
    create_pdf_aux loads rows cols l off written outputOk =
      create_pdf_aux loads rows cols (l.drop (rows * cols)) (off + rows * cols)
        (written ++ ["page_" ++ toString (off / (rows * cols) + 1) ++ ".png"]) outputOk := by
  rw [create_pdf_aux.eq_def]
  rw [dif_neg (by simp [hcap, hl])]
  rw [hok]

theorem create_pdf_aux_spec (loads : String → Bool) (rows cols : ℕ)
    (hr : 0 < rows) (hcol : 0 < cols) :
    ∀ (l : List ImgSpec) (off : ℕ) (written : List String) (outputOk : Bool),
      ((create_pdf_aux loads rows cols l off written outputOk).success = true ↔
        (outputOk = true ∧ ∀ c ∈ paginate (rows * cols) l,
          (resolveFont loads).isSome = true ∧ c.all (fun img => img.ok) = true)) ∧
      ((create_pdf_aux loads rows cols l off written outputOk).success = true →
        (create_pdf_aux loads rows cols l off written outputOk).tempFiles = []) := by
  have hcap : rows * cols ≠ 0 := (Nat.mul_pos hr hcol).ne'
  intro l off written outputOk
  induction l, off, written, outputOk using create_pdf_aux.induct loads rows cols with
  | case1 l off written h =>
    have hl : l = [] := by
      rcases h with h | h
      · omega
      · simpa using h
    subst hl
    rw [create_pdf_aux_done _ _ _ _ _ _ _ (Or.inr rfl), if_pos rfl,
      paginate_eq_nil (Or.inr rfl)]
    simp
  | case2 l off written outputOk h hout =>
    have hfalse : outputOk = false := by
      cases outputOk
      · rfl
      · exact absurd rfl hout
    subst hfalse
    rw [create_pdf_aux_done _ _ _ _ _ _ _ (by rcases h with h | h; omega; exact Or.inr (by simpa using h))]
    simp
  | case3 l off written outputOk h e herr =>
    simp only [not_or] at h
    have hl : l ≠ [] := by
      intro hnil; exact h.2 (by simp [hnil])
    rw [create_pdf_aux_error _ _ _ _ _ _ _ h.1 hl e herr]
    constructor
    · simp only [show (false = true) = False by simp, false_iff, not_and]
      intro _ hall
      have hhead : l.take (rows * cols) ∈ paginate (rows * cols) l := by
        rw [paginate_cons h.1 hl]
        exact List.mem_cons_self _ _
      obtain ⟨hfont, hok⟩ := hall _ hhead
      obtain ⟨res, hres⟩ := (combine_ok_iff loads (l.take (rows * cols)) rows cols off).mpr
        ⟨hfont, hok⟩
      rw [herr] at hres
      exact absurd hres (by simp)
    · intro hfalse
      simp at hfalse
  | case4 l off written outputOk h res hok ih =>
    simp only [not_or] at h
    have hl : l ≠ [] := by
      intro hnil; exact h.2 (by simp [hnil])
    rw [create_pdf_aux_step _ _ _ _ _ _ _ h.1 hl res hok]
    have hheadok : (resolveFont loads).isSome = true ∧
        (l.take (rows * cols)).all (fun img => img.ok) = true :=
      (combine_ok_iff loads (l.take (rows * cols)) rows cols off).mp ⟨res, hok⟩
    constructor
    · rw [ih.1, paginate_cons h.1 hl]
      constructor
      · rintro ⟨hout, htail⟩
        refine ⟨hout, ?_⟩
        intro c hmem
        rcases List.mem_cons.mp hmem with hceq | htl
        · subst hceq; exact hheadok
        · exact htail c htl
      · rintro ⟨hout, hall⟩
        refine ⟨hout, ?_⟩
        intro c hmem
        exact hall c (List.mem_cons_of_mem _ hmem)
    · exact ih.2

/-- C9 counterexample: with a decodable first image and an undecodable
second image (rows = cols = 1, assembly would succeed), composition of
page 2 fails after page 1's temporary file `page_1.png` was written; the
run aborts with that file still present, so a failing run does leave an
orphaned temporary file behind (cleanup, lines 219-221, runs only after a
successful `pdf.output`). -/
theorem claim_C9_counterexample :
    (create_pdf_from_images (fun _ => true) [⟨1, 1, true⟩, ⟨1, 1, false⟩] 1 1
      true).success = false ∧
    (create_pdf_from_images (fun _ => true) [⟨1, 1, true⟩, ⟨1, 1, false⟩] 1 1
      true).tempFiles = ["page_1.png"] := by
  have hfont : resolveFont (fun _ => true) = some "Helvetica.ttf" := rfl
  obtain ⟨res, hres⟩ : ∃ res,
      combine_images_to_page (fun _ => true) [⟨1, 1, true⟩] 1 1 0 = Except.ok res :=
    (combine_ok_iff _ _ _ _ _).mpr ⟨by rw [hfont]; rfl, by decide⟩
  have herr : combine_images_to_page (fun _ => true) [⟨1, 1, false⟩] 1 1 1 =
      Except.error "cannot identify image file" := by
    rw [combine_images_to_page, hfont]
    rfl
  have hrun : create_pdf_from_images (fun _ => true) [⟨1, 1, true⟩, ⟨1, 1, false⟩] 1 1 true =
      { success := false, tempFiles := ["page_1.png"] } := by
    calc create_pdf_from_images (fun _ => true) [⟨1, 1, true⟩, ⟨1, 1, false⟩] 1 1 true
        = create_pdf_aux (fun _ => true) 1 1 [⟨1, 1, true⟩, ⟨1, 1, false⟩] 0 [] true := rfl
      _ = create_pdf_aux (fun _ => true) 1 1 [⟨1, 1, false⟩] 1 ["page_1.png"] true :=
          create_pdf_aux_step _ _ _ _ _ _ _ (by decide) (by decide) res hres
      _ = { success := false, tempFiles := ["page_1.png"] } :=
          create_pdf_aux_error _ _ _ _ _ _ _ (by decide) (by decide) _ herr
  rw [hrun]
  exact ⟨rfl, rfl⟩

/-- C9 (amended): the temporary per-page files are removed exactly on the
success path — a completed run (every page composed and `pdf.output`
succeeded) exits with no temporary file left; but the cleanup does not
execute on a failing run: a composition or assembly failure aborts with
the previously written `page_k.png` files still present. -/
theorem claim_C9_amended (loads : String → Bool) (l : List ImgSpec) (rows cols : ℕ)
    (outputOk : Bool) (hr : 0 < rows) (hcol : 0 < cols) :
    ((create_pdf_from_images loads l rows cols outputOk).success = true →
      (create_pdf_from_images loads l rows cols outputOk).tempFiles = []) ∧
    ((create_pdf_from_images loads l rows cols outputOk).success = true ↔
      (outputOk = true ∧ ∀ c ∈ paginate (rows * cols) l,
        (resolveFont loads).isSome = true ∧ c.all (fun img => img.ok) = true)) := by
  have h := create_pdf_aux_spec loads rows cols hr hcol l 0 [] outputOk
  exact ⟨h.2, h.1⟩

theorem claim_C9_amended_witness :
    (create_pdf_from_images (fun _ => true) [⟨1, 1, true⟩] 1 1 true).tempFiles = [] := by
  have h := claim_C9_amended (fun _ => true) [⟨1, 1, true⟩] 1 1 true (by decide) (by decide)
  apply h.1
  rw [h.2]
  refine ⟨rfl, ?_⟩
  intro c hmem
  have hp : paginate (1 * 1) [(⟨1, 1, true⟩ : ImgSpec)] = [[⟨1, 1, true⟩]] := by
    rw [paginate_cons (by decide) (by decide),
      paginate_eq_nil (Or.inr (by decide : List.drop (1 * 1) [(⟨1, 1, true⟩ : ImgSpec)] = []))]
    decide
  rw [hp] at hmem
  have hc : c = [⟨1, 1, true⟩] := by simpa using hmem
  subst hc
  exact ⟨rfl, by decide⟩

/-- C10: page composition is deterministic — two runs of the page
composer on the same font environment, identical image inputs, identical
grid configuration and the same starting ordinal produce identical
outcomes (in particular pixel-identical canvases: every placement, size
and label is equal). -/
theorem claim_C10 (loads : String → Bool) (imgs1 imgs2 : List ImgSpec)
    (rows1 rows2 cols1 cols2 s1 s2 : ℕ) (h1 : imgs1 = imgs2) (h2 : rows1 = rows2)
    (h3 : cols1 = cols2) (h4 : s1 = s2) :
    combine_images_to_page loads imgs1 rows1 cols1 s1 =
      combine_images_to_page loads imgs2 rows2 cols2 s2 := by
  subst h1 h2 h3 h4
  rfl

theorem claim_C10_witness :
    combine_images_to_page (fun _ => true) [⟨5, 5, true⟩] 4 3 0 =
      combine_images_to_page (fun _ => true) [⟨5, 5, true⟩] 4 3 0 :=
  claim_C10 (fun _ => true) [⟨5, 5, true⟩] [⟨5, 5, true⟩] 4 4 3 3 0 0 rfl rfl rfl rfl

end ClothList
